import Mathlib

/-!
Shallow embedding of the quadtree image-compression program (`tree.py`)
and proofs of its specified properties.

Conventions of the embedding:
* Python floats are modelled as exact real numbers (`ℝ`); the rational
  sub-computations (histogram sums, weighted means) are kept in `ℚ`.
* PIL (`Image`) is an external collaborator.  An image is modelled by its
  observable interface: its size, its bounding box (`Image.getbbox`, which
  is `none` for an image with no pixels, e.g. a zero-width or zero-height
  image), and the region-sampling composite `image.crop(box).histogram()`,
  modelled as a single oracle from regions to histograms.
* The recursive construction in `QuadTree.__build_tree` is modelled as an
  inductive relation `BuildTree` describing the completed trees the
  procedure can produce; thread scheduling does not affect the result
  because each node's statistics depend only on its own region.
-/

/-- A coordinate region `(left, top, right, bottom)`, as the `border_box`
tuples of `tree.py`.  Coordinates are rational: the initial bounding box is
integral and each split introduces midpoints via exact division by 2. -/
structure Region where
  left : ℚ
  top : ℚ
  right : ℚ
  bottom : ℚ
deriving DecidableEq

/-- The `Point` class of `tree.py` (only its coordinate payload). -/
structure Point where
  x : ℚ
  y : ℚ
deriving DecidableEq

/-- `MAX_DEPTH = 8` from `tree.py`. -/
def MAX_DEPTH : ℕ := 8

/-- `ERROR_THRESHOLD = 13` from `tree.py` (compared against the real-valued
node error). -/
def ERROR_THRESHOLD : ℝ := 13

/-- The generator sum `sum(i * x for i, x in enumerate(hist))` of
`weighted_average`, with explicit running index. -/
def weightedSum : ℕ → List ℕ → ℕ
  | _, [] => 0
  | i, x :: xs => i * x + weightedSum (i + 1) xs

/-- The generator sum `sum(x * (value - i) ** 2 for i, x in enumerate(hist))`
of `weighted_average`, with explicit running index. -/
def squareDevSum (value : ℚ) : ℕ → List ℕ → ℚ
  | _, [] => 0
  | i, x :: xs => (x : ℚ) * (value - (i : ℚ)) ^ 2 + squareDevSum value (i + 1) xs

/-- `weighted_average(hist)` from `tree.py`: the weighted mean colour value
and the error (`** 0.5` of the mean squared deviation); both are `0` when
the histogram total is `0`. -/
noncomputable def weighted_average (hist : List ℕ) : ℚ × ℝ :=
  let total := hist.sum
  if 0 < total then
    let value : ℚ := (weightedSum 0 hist : ℚ) / (total : ℚ)
    (value, Real.sqrt ((squareDevSum value 0 hist / (total : ℚ) : ℚ) : ℝ))
  else (0, 0)

/-- Python's `int()` applied to a rational: truncation toward zero. -/
def pyInt (q : ℚ) : ℤ := if 0 ≤ q then ⌊q⌋ else ⌈q⌉

/-- `color_from_histogram(hist)` from `tree.py`: `weighted_average` of the
slices `hist[:256]`, `hist[256:512]`, `hist[512:768]`, the channel values
truncated by `int()`, and the luma-weighted combined error. -/
noncomputable def color_from_histogram (hist : List ℕ) :
    (ℤ × ℤ × ℤ) × ℝ :=
  let red := weighted_average (hist.take 256)
  let green := weighted_average ((hist.drop 256).take 256)
  let blue := weighted_average ((hist.drop 512).take 256)
  ((pyInt red.1, pyInt green.1, pyInt blue.1),
    red.2 * 0.2989 + green.2 * 0.5870 + blue.2 * 0.1140)

/-- The observable interface of a PIL image (external collaborator):
its size, `getbbox()` (which is `none` when the image has no pixels,
in particular for a zero-width or zero-height image), and the composite
`image.crop(box).histogram()` as an oracle from regions to histograms. -/
structure PyImage where
  width : ℕ
  height : ℕ
  getbbox : Option Region
  histogram : Region → List ℕ

/-- The statistics a node computes in `QuadtreeNode.__init__`:
`color_from_histogram(image.crop(border_box).histogram())`. -/
noncomputable def nodeStats (img : PyImage) (r : Region) : (ℤ × ℤ × ℤ) × ℝ :=
  color_from_histogram (img.histogram r)

/-- Python exceptions that the modelled code can raise, together with the
pre-construction invalid-input rejection that the specification describes
for zero-dimension images (no code path produces it). -/
inductive PyExc where
  | typeError : PyExc
  | valueError : PyExc
  | invalidInput : PyExc
deriving DecidableEq

/-- A `QuadtreeNode` of `tree.py` in its observable final state: region,
depth, average colour, error, leaf flag, and `childrens` (`none` before a
split, a list of nodes afterwards). -/
inductive QuadtreeNode where
  | mk (border_box : Region) (depth : ℕ) (average_color : ℤ × ℤ × ℤ)
      (error : ℝ) (is_leaf : Bool)
      (childrens : Option (List QuadtreeNode)) : QuadtreeNode

namespace QuadtreeNode

/-- The `border_box` attribute. -/
def border_box : QuadtreeNode → Region
  | mk r _ _ _ _ _ => r

/-- The `depth` property. -/
def depth : QuadtreeNode → ℕ
  | mk _ d _ _ _ _ => d

/-- The `average_color` property. -/
def average_color : QuadtreeNode → ℤ × ℤ × ℤ
  | mk _ _ c _ _ _ => c

/-- The `error` property. -/
def error : QuadtreeNode → ℝ
  | mk _ _ _ e _ _ => e

/-- The `is_leaf` property. -/
def is_leaf : QuadtreeNode → Bool
  | mk _ _ _ _ l _ => l

/-- The `childrens` property. -/
def childrens : QuadtreeNode → Option (List QuadtreeNode)
  | mk _ _ _ _ _ c => c

end QuadtreeNode

/-- The `__node_center_point` computed in `QuadtreeNode.__init__`:
`(border_box[0] + (border_box[2] - border_box[0]) / 2,
  border_box[1] + (border_box[3] - border_box[1]) / 2)`,
with exact (real) division. -/
def node_center_point (r : Region) : Point :=
  ⟨r.left + (r.right - r.left) / 2, r.top + (r.bottom - r.top) / 2⟩

/-- The top-left child region created by `QuadtreeNode.split`. -/
def topLeftRegion (r : Region) : Region :=
  ⟨r.left, r.top, (node_center_point r).x, (node_center_point r).y⟩

/-- The top-right child region created by `QuadtreeNode.split`. -/
def topRightRegion (r : Region) : Region :=
  ⟨(node_center_point r).x, r.top, r.right, (node_center_point r).y⟩

/-- The bottom-left child region created by `QuadtreeNode.split`. -/
def bottomLeftRegion (r : Region) : Region :=
  ⟨r.left, (node_center_point r).y, (node_center_point r).x, r.bottom⟩

/-- The bottom-right child region created by `QuadtreeNode.split`. -/
def bottomRightRegion (r : Region) : Region :=
  ⟨(node_center_point r).x, (node_center_point r).y, r.right, r.bottom⟩

/-- The set of points of a region, with the inclusive-exclusive convention
of crop semantics. -/
def Region.toSet (r : Region) : Set (ℚ × ℚ) :=
  {p | r.left ≤ p.1 ∧ p.1 < r.right ∧ r.top ≤ p.2 ∧ p.2 < r.bottom}

/-- A fresh node as produced by `QuadtreeNode.__init__` with a valid
border box: statistics computed from its own cropped region, leaf flag
`False`, no children. -/
noncomputable def mkQuadtreeNode (img : PyImage) (border_box : Region)
    (depth : ℕ) : QuadtreeNode :=
  .mk border_box depth (nodeStats img border_box).1
    (nodeStats img border_box).2 false none

/-- `QuadtreeNode.__init__` as called with the raw result of
`image.getbbox()`: when the box is `None`, the very first use
`self.__border_box[0]` raises `TypeError` (subscripting `None`). -/
noncomputable def quadtree_node_init (img : PyImage)
    (border_box : Option Region) (depth : ℕ) : Except PyExc QuadtreeNode :=
  match border_box with
  | none => Except.error PyExc.typeError
  | some r => Except.ok (mkQuadtreeNode img r depth)

/-- The root-creation step of `QuadTree.__init__`:
`QuadtreeNode(image, image.getbbox(), 0)`.  No validation of image
dimensions happens before it. -/
noncomputable def quadtree_init_root (img : PyImage) :
    Except PyExc QuadtreeNode :=
  quadtree_node_init img img.getbbox 0

/-- `QuadtreeNode.split`: replaces `childrens` by the four quadrant nodes
(top-left, top-right, bottom-left, bottom-right) at `depth + 1`, each
constructed from its own region of the same source image. -/
noncomputable def QuadtreeNode.split (img : PyImage) :
    QuadtreeNode → QuadtreeNode
  | .mk r d c e l _ =>
    .mk r d c e l (some
      [mkQuadtreeNode img (topLeftRegion r) (d + 1),
       mkQuadtreeNode img (topRightRegion r) (d + 1),
       mkQuadtreeNode img (bottomLeftRegion r) (d + 1),
       mkQuadtreeNode img (bottomRightRegion r) (d + 1)])

mutual

/-- All nodes of a (sub)tree: the node itself and, recursively, every node
of every child. -/
def allNodes : QuadtreeNode → List QuadtreeNode
  | .mk r d c e l none => [.mk r d c e l none]
  | .mk r d c e l (some children) =>
      .mk r d c e l (some children) :: allNodesList children

/-- All nodes of the subtrees rooted at each node of a list. -/
def allNodesList : List QuadtreeNode → List QuadtreeNode
  | [] => []
  | c :: rest => allNodes c ++ allNodesList rest

end

/-- The final value of the `__max_depth` counter of `QuadTree`: starting
from `0`, `__build_tree` raises it to the depth of every node it stops
(marks leaf), so it ends as the maximum of `0` and the depths of the
leaf-marked nodes. -/
def maxLeafDepth (n : QuadtreeNode) : ℕ :=
  (((allNodes n).filter (fun m => m.is_leaf)).map (fun m => m.depth)).foldr
    max 0

mutual

/-- `QuadTree.get_leaf_nodes_recursion`: appends the node to the
accumulated list when `node.is_leaf is True or node.depth == depth`,
otherwise recurses into the children when `childrens is not None`. -/
def get_leaf_nodes_recursion :
    QuadtreeNode → ℕ → List QuadtreeNode → List QuadtreeNode
  | .mk r d c e l none, depth, leaf_nodes =>
      if l = true ∨ d = depth then leaf_nodes ++ [.mk r d c e l none]
      else leaf_nodes
  | .mk r d c e l (some children), depth, leaf_nodes =>
      if l = true ∨ d = depth then
        leaf_nodes ++ [.mk r d c e l (some children)]
      else get_leaf_nodes_recursion_list children depth leaf_nodes

/-- The `for child in node.childrens` loop of
`get_leaf_nodes_recursion`, threading the accumulated list. -/
def get_leaf_nodes_recursion_list :
    List QuadtreeNode → ℕ → List QuadtreeNode → List QuadtreeNode
  | [], _, leaf_nodes => leaf_nodes
  | c :: rest, depth, leaf_nodes =>
      get_leaf_nodes_recursion_list rest depth
        (get_leaf_nodes_recursion c depth leaf_nodes)

end

/-- The observable state of a completed `QuadTree`: image size, root node,
and the recorded maximum depth. -/
structure QuadTree where
  width : ℕ
  height : ℕ
  root : QuadtreeNode
  max_depth : ℕ

/-- `QuadTree.get_leaf_nodes`: raises `ValueError` when the requested
depth exceeds the recorded maximum depth, otherwise collects leaves
recursively from the root into an initially empty list. -/
def QuadTree.get_leaf_nodes (t : QuadTree) (depth : ℕ) :
    Except PyExc (List QuadtreeNode) :=
  if t.max_depth < depth then Except.error PyExc.valueError
  else Except.ok (get_leaf_nodes_recursion t.root depth [])

/-- `QuadTree.__build_tree`, as the relation between a region, a starting
depth, and the completed subtree the recursion produces there: when
`node.depth >= MAX_DEPTH or node.error <= ERROR_THRESHOLD` the node is
marked leaf and gets no children; otherwise it is split and all four
children are built recursively. -/
inductive BuildTree (img : PyImage) : Region → ℕ → QuadtreeNode → Prop where
  | stop (r : Region) (d : ℕ)
      (h : MAX_DEPTH ≤ d ∨ (nodeStats img r).2 ≤ ERROR_THRESHOLD) :
      BuildTree img r d
        (.mk r d (nodeStats img r).1 (nodeStats img r).2 true none)
  | next (r : Region) (d : ℕ)
      (h : ¬(MAX_DEPTH ≤ d ∨ (nodeStats img r).2 ≤ ERROR_THRESHOLD))
      (tl tr bl br : QuadtreeNode)
      (htl : BuildTree img (topLeftRegion r) (d + 1) tl)
      (htr : BuildTree img (topRightRegion r) (d + 1) tr)
      (hbl : BuildTree img (bottomLeftRegion r) (d + 1) bl)
      (hbr : BuildTree img (bottomRightRegion r) (d + 1) br) :
      BuildTree img r d
        (.mk r d (nodeStats img r).1 (nodeStats img r).2 false
          (some [tl, tr, bl, br]))

/-- `QuadTree.__init__` on an image whose root node construction succeeds:
the size is taken from the image, the root is built from the image's
bounding box at depth `0`, and `max_depth` ends as the maximum depth
reached over the leaf-marked nodes (starting from `0`). -/
def BuildQuadTree (img : PyImage) (t : QuadTree) : Prop :=
  ∃ r0 : Region, img.getbbox = some r0
    ∧ t.width = img.width ∧ t.height = img.height
    ∧ BuildTree img r0 0 t.root
    ∧ t.max_depth = maxLeafDepth t.root

mutual

/-- The leaf-extraction traversal as the specification words it: a node is
collected, and not descended into, exactly when it is marked leaf or its
depth equals the requested depth; otherwise the traversal recurses into
its children. -/
def specCollect (depth : ℕ) : QuadtreeNode → List QuadtreeNode
  | .mk r d c e l none =>
      if l = true ∨ d = depth then [.mk r d c e l none] else []
  | .mk r d c e l (some children) =>
      if l = true ∨ d = depth then [.mk r d c e l (some children)]
      else specCollectList depth children

/-- `specCollect` over a list of children, in order. -/
def specCollectList (depth : ℕ) : List QuadtreeNode → List QuadtreeNode
  | [] => []
  | c :: rest => specCollect depth c ++ specCollectList depth rest

end

/-! ### Concrete instances used in witnesses -/

/-- A length-256 histogram with all its mass at bucket 100. -/
def histAt100 : List ℕ := List.replicate 100 0 ++ 7 :: List.replicate 155 0

/-- A length-256 histogram with equal counts at buckets 0 and 255 and
zeros elsewhere. -/
def histTwoSpike : List ℕ := 3 :: (List.replicate 254 0 ++ [3])

/-- A 1×1 image whose every crop has an all-zero histogram. -/
def imgBlack : PyImage :=
  ⟨1, 1, some ⟨0, 0, 1, 1⟩, fun _ => List.replicate 768 0⟩

/-- The root node the build produces on `imgBlack`: stopped at depth 0
because its error `0` is below the threshold. -/
def rootBlack : QuadtreeNode := .mk ⟨0, 0, 1, 1⟩ 0 (0, 0, 0) 0 true none

/-- The completed `QuadTree` on `imgBlack`. -/
def treeBlack : QuadTree := ⟨1, 1, rootBlack, 0⟩

/-- A zero-width image: it has no pixels, so `getbbox()` returns `None`
(PIL semantics). -/
def imgZeroWidth : PyImage := ⟨0, 5, none, fun _ => List.replicate 768 0⟩

/-! ### Histogram statistics lemmas -/

theorem weightedSum_append (k : ℕ) (xs ys : List ℕ) :
    weightedSum k (xs ++ ys)
      = weightedSum k xs + weightedSum (k + xs.length) ys := by
  induction xs generalizing k with
  | nil => simp [weightedSum]
  | cons x xs ih =>
    rw [List.cons_append, weightedSum, weightedSum, ih (k + 1), List.length_cons,
      Nat.add_assoc, show 1 + xs.length = xs.length + 1 from Nat.add_comm 1 _]
    exact (Nat.add_assoc _ _ _).symm

theorem weightedSum_replicate_zero (k n : ℕ) :
    weightedSum k (List.replicate n 0) = 0 := by
  induction n generalizing k with
  | zero => rfl
  | succ n ih => rw [List.replicate_succ, weightedSum, ih]; ring

theorem squareDevSum_append (v : ℚ) (k : ℕ) (xs ys : List ℕ) :
    squareDevSum v k (xs ++ ys)
      = squareDevSum v k xs + squareDevSum v (k + xs.length) ys := by
  induction xs generalizing k with
  | nil => simp [squareDevSum]
  | cons x xs ih =>
    rw [List.cons_append, squareDevSum, squareDevSum, ih (k + 1), List.length_cons,
      Nat.add_assoc, show 1 + xs.length = xs.length + 1 from Nat.add_comm 1 _]
    exact (add_assoc _ _ _).symm

theorem squareDevSum_replicate_zero (v : ℚ) (k n : ℕ) :
    squareDevSum v k (List.replicate n 0) = 0 := by
  induction n generalizing k with
  | zero => rfl
  | succ n ih => rw [List.replicate_succ, squareDevSum, ih]; ring

theorem weightedSum_eq_sum_range (k : ℕ) (xs : List ℕ) :
    weightedSum k xs
      = ∑ i in Finset.range xs.length, (k + i) * xs.getD i 0 := by
  induction xs generalizing k with
  | nil => simp [weightedSum]
  | cons x xs ih =>
    rw [List.length_cons, Finset.sum_range_succ', weightedSum, ih (k + 1)]
    simp only [List.getD_cons_succ, List.getD_cons_zero, Nat.add_zero]
    rw [Nat.add_comm]
    congr 1
    refine Finset.sum_congr rfl fun i _ => ?_
    ring

theorem squareDevSum_eq_sum_range (v : ℚ) (k : ℕ) (xs : List ℕ) :
    squareDevSum v k xs
      = ∑ i in Finset.range xs.length,
          (xs.getD i 0 : ℚ) * (v - ((k + i : ℕ) : ℚ)) ^ 2 := by
  induction xs generalizing k with
  | nil => simp [squareDevSum]
  | cons x xs ih =>
    rw [List.length_cons, Finset.sum_range_succ', squareDevSum, ih (k + 1)]
    simp only [List.getD_cons_succ, List.getD_cons_zero, Nat.add_zero]
    rw [add_comm]
    congr 1
    refine Finset.sum_congr rfl fun i _ => ?_
    have : ((k + 1 + i : ℕ) : ℚ) = ((k + (i + 1) : ℕ) : ℚ) := by push_cast; ring
    rw [this]

theorem weighted_average_of_sum_zero (hist : List ℕ) (h : hist.sum = 0) :
    weighted_average hist = (0, 0) := by
  rw [weighted_average]
  simp [h]

theorem weighted_average_of_sum_pos (hist : List ℕ) (h : 0 < hist.sum) :
    weighted_average hist
      = ((weightedSum 0 hist : ℚ) / (hist.sum : ℚ),
          Real.sqrt
            ((squareDevSum ((weightedSum 0 hist : ℚ) / (hist.sum : ℚ)) 0 hist
              / (hist.sum : ℚ) : ℚ) : ℝ)) := by
  rw [weighted_average]
  simp [h]

theorem weighted_average_value_formula (hist : List ℕ) (h : 0 < hist.sum) :
    (weighted_average hist).1
      = ((weightedSum 0 hist : ℕ) : ℚ) / ((hist.sum : ℕ) : ℚ) := by
  rw [weighted_average_of_sum_pos hist h]

theorem weighted_average_error_formula (hist : List ℕ) (h : 0 < hist.sum) :
    (weighted_average hist).2
      = Real.sqrt (((squareDevSum ((weighted_average hist).1) 0 hist
          / ((hist.sum : ℕ) : ℚ) : ℚ) : ℝ)) := by
  rw [weighted_average_of_sum_pos hist h]

theorem weighted_average_value_nonneg (hist : List ℕ) :
    0 ≤ (weighted_average hist).1 := by
  by_cases h : 0 < hist.sum
  · rw [weighted_average_of_sum_pos hist h]
    exact div_nonneg (Nat.cast_nonneg _) (Nat.cast_nonneg _)
  · rw [weighted_average_of_sum_zero hist (Nat.eq_zero_of_not_pos h)]

theorem weightedSum_le (k : ℕ) (xs : List ℕ) (b : ℕ)
    (hb : k + xs.length ≤ b + 1) : weightedSum k xs ≤ b * xs.sum := by
  induction xs generalizing k with
  | nil => simp [weightedSum]
  | cons x xs ih =>
    rw [List.length_cons] at hb
    rw [weightedSum, List.sum_cons, Nat.mul_add]
    have hk : k ≤ b := by omega
    have hrec : k + 1 + xs.length ≤ b + 1 := by omega
    exact Nat.add_le_add (Nat.mul_le_mul_right x hk) (ih (k + 1) hrec)

theorem weighted_average_value_le (hist : List ℕ) (h : hist.length ≤ 256) :
    (weighted_average hist).1 ≤ 255 := by
  by_cases hs : 0 < hist.sum
  · rw [weighted_average_of_sum_pos hist hs]
    rw [div_le_iff₀ (by exact_mod_cast hs)]
    have hle : weightedSum 0 hist ≤ 255 * hist.sum :=
      weightedSum_le 0 hist 255 (by omega)
    exact_mod_cast hle
  · rw [weighted_average_of_sum_zero hist (Nat.eq_zero_of_not_pos hs)]
    norm_num

theorem weighted_average_error_nonneg (hist : List ℕ) :
    0 ≤ (weighted_average hist).2 := by
  by_cases h : 0 < hist.sum
  · rw [weighted_average_of_sum_pos hist h]
    exact Real.sqrt_nonneg _
  · rw [weighted_average_of_sum_zero hist (Nat.eq_zero_of_not_pos h)]


theorem histAt100_sum : histAt100.sum = 7 := by
  rw [histAt100, List.sum_append, List.sum_cons, List.sum_replicate,
    List.sum_replicate]
  simp

theorem histAt100_length : histAt100.length = 256 := by
  rw [histAt100, List.length_append, List.length_replicate, List.length_cons,
    List.length_replicate]

theorem histAt100_weightedSum : weightedSum 0 histAt100 = 700 := by
  rw [histAt100, weightedSum_append, weightedSum_replicate_zero, weightedSum,
    weightedSum_replicate_zero, List.length_replicate]

theorem histAt100_squareDevSum : squareDevSum 100 0 histAt100 = 0 := by
  rw [histAt100, squareDevSum_append, squareDevSum_replicate_zero, squareDevSum,
    squareDevSum_replicate_zero, List.length_replicate]
  norm_num

theorem histTwoSpike_sum : histTwoSpike.sum = 6 := by
  rw [histTwoSpike, List.sum_cons, List.sum_append, List.sum_replicate]
  simp

theorem histTwoSpike_length : histTwoSpike.length = 256 := by
  rw [histTwoSpike, List.length_cons, List.length_append, List.length_replicate,
    List.length_singleton]

theorem histTwoSpike_weightedSum : weightedSum 0 histTwoSpike = 765 := by
  rw [histTwoSpike, weightedSum, weightedSum_append, weightedSum_replicate_zero,
    List.length_replicate, weightedSum, weightedSum]

theorem histTwoSpike_squareDevSum :
    squareDevSum (255 / 2) 0 histTwoSpike = 6 * (255 / 2) ^ 2 := by
  rw [histTwoSpike, squareDevSum, squareDevSum_append,
    squareDevSum_replicate_zero, List.length_replicate, squareDevSum,
    squareDevSum]
  norm_num

/-- C2: for every list of 256 non-negative integer counts,
`weighted_average` returns `(0, 0)` when the total of the counts is `0`,
and otherwise returns `value = Σ(i * counts[i]) / total` and
`error = sqrt(Σ(counts[i] * (value - i)^2) / total)`; the all-zero
histogram yields `(0, 0)`, a histogram with all mass at bucket 100 yields
`(100, 0)`, and a histogram with equal counts at buckets 0 and 255 yields
value `127.5` with nonzero error. -/
theorem weighted_average_spec (hist : List ℕ) (hlen : hist.length = 256) :
    (hist.sum = 0 → weighted_average hist = (0, 0))
    ∧ (0 < hist.sum →
        (weighted_average hist).1
            = (∑ i in Finset.range 256, (i : ℚ) * (hist.getD i 0 : ℚ))
              / (hist.sum : ℚ)
          ∧ (weighted_average hist).2
            = Real.sqrt ((∑ i in Finset.range 256,
                (hist.getD i 0 : ℝ)
                  * (((weighted_average hist).1 : ℝ) - (i : ℝ)) ^ 2)
                / (hist.sum : ℝ)))
    ∧ weighted_average (List.replicate 256 0) = (0, 0)
    ∧ weighted_average histAt100 = (100, 0)
    ∧ (weighted_average histTwoSpike).1 = 255 / 2
    ∧ (weighted_average histTwoSpike).2 ≠ 0 := by
  refine ⟨weighted_average_of_sum_zero hist, ?_, ?_, ?_, ?_, ?_⟩
  · intro hpos
    have hval : ((weightedSum 0 hist : ℕ) : ℚ)
        = ∑ i in Finset.range 256, (i : ℚ) * (hist.getD i 0 : ℚ) := by
      rw [weightedSum_eq_sum_range, ← hlen]
      push_cast
      exact Finset.sum_congr rfl fun i _ => by ring
    have hsq : ∀ v : ℚ, ((squareDevSum v 0 hist : ℚ) : ℝ)
        = ∑ i in Finset.range 256,
            (hist.getD i 0 : ℝ) * ((v : ℝ) - (i : ℝ)) ^ 2 := by
      intro v
      rw [squareDevSum_eq_sum_range, ← hlen]
      push_cast
      exact Finset.sum_congr rfl fun i _ => by ring
    constructor
    · rw [weighted_average_value_formula hist hpos, hval]
    · rw [weighted_average_error_formula hist hpos]
      congr 1
      rw [Rat.cast_div, hsq ((weighted_average hist).1), Rat.cast_natCast]
  · exact weighted_average_of_sum_zero _
      (by rw [List.sum_replicate, smul_zero])
  · have h7 : (0 : ℕ) < histAt100.sum := by rw [histAt100_sum]; norm_num
    rw [weighted_average_of_sum_pos _ h7, histAt100_sum, histAt100_weightedSum]
    have hv : ((700 : ℕ) : ℚ) / ((7 : ℕ) : ℚ) = 100 := by norm_num
    rw [hv, histAt100_squareDevSum]
    norm_num
  · have h6 : (0 : ℕ) < histTwoSpike.sum := by rw [histTwoSpike_sum]; norm_num
    rw [weighted_average_of_sum_pos _ h6, histTwoSpike_sum,
      histTwoSpike_weightedSum]
    norm_num
  · have h6 : (0 : ℕ) < histTwoSpike.sum := by rw [histTwoSpike_sum]; norm_num
    rw [weighted_average_of_sum_pos _ h6, histTwoSpike_sum,
      histTwoSpike_weightedSum]
    have hv : ((765 : ℕ) : ℚ) / ((6 : ℕ) : ℚ) = 255 / 2 := by norm_num
    rw [hv, histTwoSpike_squareDevSum]
    rw [Real.sqrt_ne_zero']
    norm_num

/-- Closed instance of `weighted_average_spec` at the all-zero histogram. -/
theorem weighted_average_spec_witness :
    weighted_average (List.replicate 256 0) = (0, 0) :=
  (weighted_average_spec (List.replicate 256 0)
    (by rw [List.length_replicate])).2.2.1

theorem color_from_histogram_def (hist : List ℕ) :
    color_from_histogram hist
      = ((pyInt (weighted_average (hist.take 256)).1,
          pyInt (weighted_average ((hist.drop 256).take 256)).1,
          pyInt (weighted_average ((hist.drop 512).take 256)).1),
         (weighted_average (hist.take 256)).2 * 0.2989
           + (weighted_average ((hist.drop 256).take 256)).2 * 0.5870
           + (weighted_average ((hist.drop 512).take 256)).2 * 0.1140) := rfl

theorem pyInt_weighted_average (xs : List ℕ) (h : xs.length ≤ 256) :
    pyInt (weighted_average xs).1 = ⌊(weighted_average xs).1⌋
    ∧ 0 ≤ pyInt (weighted_average xs).1
    ∧ pyInt (weighted_average xs).1 ≤ 255 := by
  have h0 := weighted_average_value_nonneg xs
  have h255 := weighted_average_value_le xs h
  refine ⟨if_pos h0, ?_, ?_⟩
  · rw [pyInt, if_pos h0]
    exact Int.floor_nonneg.mpr h0
  · rw [pyInt, if_pos h0]
    calc ⌊(weighted_average xs).1⌋ ≤ ⌊(255 : ℚ)⌋ := Int.floor_le_floor h255
    _ = 255 := by norm_num

/-- C3: for every 768-length histogram of non-negative counts,
`color_from_histogram` applies `weighted_average` independently to the
three contiguous slices `[0:256)`, `[256:512)`, `[512:768)`, truncates
(floors, the values being non-negative) each channel's value to an integer
in `[0, 255]`, and returns as its scalar error the luma-weighted
combination `0.2989 * red_error + 0.5870 * green_error + 0.1140 *
blue_error`, which is non-negative. -/
theorem color_from_histogram_spec (hist : List ℕ)
    (hlen : hist.length = 768) :
    ((color_from_histogram hist).1.1
        = ⌊(weighted_average (hist.take 256)).1⌋
      ∧ 0 ≤ (color_from_histogram hist).1.1
      ∧ (color_from_histogram hist).1.1 ≤ 255)
    ∧ ((color_from_histogram hist).1.2.1
        = ⌊(weighted_average ((hist.drop 256).take 256)).1⌋
      ∧ 0 ≤ (color_from_histogram hist).1.2.1
      ∧ (color_from_histogram hist).1.2.1 ≤ 255)
    ∧ ((color_from_histogram hist).1.2.2
        = ⌊(weighted_average ((hist.drop 512).take 256)).1⌋
      ∧ 0 ≤ (color_from_histogram hist).1.2.2
      ∧ (color_from_histogram hist).1.2.2 ≤ 255)
    ∧ (color_from_histogram hist).2
        = 0.2989 * (weighted_average (hist.take 256)).2
          + 0.5870 * (weighted_average ((hist.drop 256).take 256)).2
          + 0.1140 * (weighted_average ((hist.drop 512).take 256)).2
    ∧ 0 ≤ (color_from_histogram hist).2 := by
  have l1 : (hist.take 256).length ≤ 256 := by
    rw [List.length_take]; exact min_le_left _ _
  have l2 : ((hist.drop 256).take 256).length ≤ 256 := by
    rw [List.length_take]; exact min_le_left _ _
  have l3 : ((hist.drop 512).take 256).length ≤ 256 := by
    rw [List.length_take]; exact min_le_left _ _
  rw [color_from_histogram_def]
  refine ⟨pyInt_weighted_average _ l1, pyInt_weighted_average _ l2,
    pyInt_weighted_average _ l3, by ring, ?_⟩
  have e1 := weighted_average_error_nonneg (hist.take 256)
  have e2 := weighted_average_error_nonneg ((hist.drop 256).take 256)
  have e3 := weighted_average_error_nonneg ((hist.drop 512).take 256)
  have w1 : (0 : ℝ) ≤ 0.2989 := by norm_num
  have w2 : (0 : ℝ) ≤ 0.5870 := by norm_num
  have w3 : (0 : ℝ) ≤ 0.1140 := by norm_num
  exact add_nonneg (add_nonneg (mul_nonneg e1 w1) (mul_nonneg e2 w2))
    (mul_nonneg e3 w3)

/-- Closed instance of `color_from_histogram_spec` at the all-zero
histogram. -/
theorem color_from_histogram_spec_witness :
    0 ≤ (color_from_histogram (List.replicate 768 0)).2 :=
  (color_from_histogram_spec (List.replicate 768 0)
    (by rw [List.length_replicate])).2.2.2.2

/-- C4: for every node that has been split, the four children's regions
exactly partition the parent's region: their union equals the parent
region, and their pairwise intersections are empty. -/
theorem split_tiling (r : Region) (h1 : r.left ≤ r.right)
    (h2 : r.top ≤ r.bottom) :
    ((topLeftRegion r).toSet ∪ (topRightRegion r).toSet
        ∪ (bottomLeftRegion r).toSet ∪ (bottomRightRegion r).toSet
      = r.toSet)
    ∧ (topLeftRegion r).toSet ∩ (topRightRegion r).toSet = ∅
    ∧ (topLeftRegion r).toSet ∩ (bottomLeftRegion r).toSet = ∅
    ∧ (topLeftRegion r).toSet ∩ (bottomRightRegion r).toSet = ∅
    ∧ (topRightRegion r).toSet ∩ (bottomLeftRegion r).toSet = ∅
    ∧ (topRightRegion r).toSet ∩ (bottomRightRegion r).toSet = ∅
    ∧ (bottomLeftRegion r).toSet ∩ (bottomRightRegion r).toSet = ∅ := by
  refine ⟨?_, ?_, ?_, ?_, ?_, ?_, ?_⟩
  · ext p
    simp only [Region.toSet, topLeftRegion, topRightRegion, bottomLeftRegion,
      bottomRightRegion, node_center_point, Set.mem_union, Set.mem_setOf_eq]
    constructor
    · rintro (((⟨a, b, c, d⟩ | ⟨a, b, c, d⟩) | ⟨a, b, c, d⟩) | ⟨a, b, c, d⟩) <;>
        exact ⟨by linarith, by linarith, by linarith, by linarith⟩
    · rintro ⟨hx1, hx2, hy1, hy2⟩
      rcases lt_or_le p.1 (r.left + (r.right - r.left) / 2) with hx | hx <;>
        rcases lt_or_le p.2 (r.top + (r.bottom - r.top) / 2) with hy | hy
      · exact Or.inl (Or.inl (Or.inl ⟨hx1, hx, hy1, hy⟩))
      · exact Or.inl (Or.inr ⟨hx1, hx, hy, hy2⟩)
      · exact Or.inl (Or.inl (Or.inr ⟨hx, hx2, hy1, hy⟩))
      · exact Or.inr ⟨hx, hx2, hy, hy2⟩
  all_goals
    rw [Set.eq_empty_iff_forall_not_mem]
    intro p
    simp only [Region.toSet, topLeftRegion, topRightRegion, bottomLeftRegion,
      bottomRightRegion, node_center_point, Set.mem_inter_iff,
      Set.mem_setOf_eq]
    rintro ⟨⟨a, b, c, d⟩, e, f, g, h⟩
    linarith

/-- Closed instance of `split_tiling` at the unit square region. -/
theorem split_tiling_witness :
    (topLeftRegion ⟨0, 0, 2, 2⟩).toSet ∪ (topRightRegion ⟨0, 0, 2, 2⟩).toSet
        ∪ (bottomLeftRegion ⟨0, 0, 2, 2⟩).toSet
        ∪ (bottomRightRegion ⟨0, 0, 2, 2⟩).toSet
      = Region.toSet ⟨0, 0, 2, 2⟩ :=
  (split_tiling ⟨0, 0, 2, 2⟩ (by norm_num) (by norm_num)).1

/-- C5 counterexample: the claim states the midpoint's second coordinate
is `top + (top - bottom) / 2`; on the region `(0, 0, 2, 4)` the code's
centre point has `y = 0 + (4 - 0) / 2 = 2`, while the claimed formula
gives `0 + (0 - 4) / 2 = -2`. -/
theorem node_center_claim_counterexample :
    (node_center_point ⟨0, 0, 2, 4⟩).y ≠ 0 + ((0 : ℚ) - 4) / 2 := by
  rw [node_center_point]
  norm_num

/-- C5 (amended): `split` computes the region's midpoint as
`(left + (right - left) / 2, top + (bottom - top) / 2)` using exact
(real) division — so it is the exact midpoint `((left + right) / 2,
(top + bottom) / 2)` even for odd-sized regions — and constructs exactly
four child nodes at `depth + 1`, in the order top-left, top-right,
bottom-left, bottom-right, each computing its own crop, histogram and
statistics. -/
theorem split_children (img : PyImage) (r : Region) (d : ℕ)
    (c : ℤ × ℤ × ℤ) (e : ℝ) (l : Bool) (cs : Option (List QuadtreeNode)) :
    QuadtreeNode.split img (.mk r d c e l cs)
      = .mk r d c e l (some
          [mkQuadtreeNode img (topLeftRegion r) (d + 1),
           mkQuadtreeNode img (topRightRegion r) (d + 1),
           mkQuadtreeNode img (bottomLeftRegion r) (d + 1),
           mkQuadtreeNode img (bottomRightRegion r) (d + 1)])
    ∧ node_center_point r
        = ⟨r.left + (r.right - r.left) / 2, r.top + (r.bottom - r.top) / 2⟩
    ∧ (node_center_point r).x = (r.left + r.right) / 2
    ∧ (node_center_point r).y = (r.top + r.bottom) / 2
    ∧ (∀ R : Region, mkQuadtreeNode img R (d + 1)
        = QuadtreeNode.mk R (d + 1)
            (color_from_histogram (img.histogram R)).1
            (color_from_histogram (img.histogram R)).2 false none) := by
  refine ⟨rfl, rfl, ?_, ?_, fun R => rfl⟩
  · show r.left + (r.right - r.left) / 2 = (r.left + r.right) / 2
    ring
  · show r.top + (r.bottom - r.top) / 2 = (r.top + r.bottom) / 2
    ring

/-! ### Tree-shape lemmas -/

theorem allNodes_self_mem (n : QuadtreeNode) : n ∈ allNodes n := by
  cases n with
  | mk r d c e l cs =>
    cases cs with
    | none => rw [allNodes]; exact List.mem_cons_self _ _
    | some children => rw [allNodes]; exact List.mem_cons_self _ _

theorem mem_allNodesList (m : QuadtreeNode) (cs : List QuadtreeNode) :
    m ∈ allNodesList cs ↔ ∃ c ∈ cs, m ∈ allNodes c := by
  induction cs with
  | nil => rw [allNodesList]; simp
  | cons c rest ih =>
    rw [allNodesList, List.mem_append, ih]
    simp

theorem buildTree_self (img : PyImage) (r : Region) (d : ℕ)
    (n : QuadtreeNode) (h : BuildTree img r d n) :
    n.border_box = r ∧ n.depth = d
      ∧ n.average_color = (nodeStats img r).1
      ∧ n.error = (nodeStats img r).2 := by
  cases h with
  | stop r d hc => exact ⟨rfl, rfl, rfl, rfl⟩
  | next r d hc tl tr bl br htl htr hbl hbr => exact ⟨rfl, rfl, rfl, rfl⟩

theorem buildTree_node_cases (img : PyImage) (r : Region) (d : ℕ)
    (n : QuadtreeNode) (h : BuildTree img r d n) :
    (n.is_leaf = true
      ∧ (MAX_DEPTH ≤ d ∨ (nodeStats img r).2 ≤ ERROR_THRESHOLD)
      ∧ n.childrens = none)
    ∨ (n.is_leaf = false
      ∧ ¬(MAX_DEPTH ≤ d ∨ (nodeStats img r).2 ≤ ERROR_THRESHOLD)
      ∧ ∃ tl tr bl br, n.childrens = some [tl, tr, bl, br]
          ∧ BuildTree img (topLeftRegion r) (d + 1) tl
          ∧ BuildTree img (topRightRegion r) (d + 1) tr
          ∧ BuildTree img (bottomLeftRegion r) (d + 1) bl
          ∧ BuildTree img (bottomRightRegion r) (d + 1) br) := by
  cases h with
  | stop r d hc => exact Or.inl ⟨rfl, hc, rfl⟩
  | next r d hc tl tr bl br htl htr hbl hbr =>
    exact Or.inr ⟨rfl, hc, tl, tr, bl, br, rfl, htl, htr, hbl, hbr⟩

theorem buildTree_allNodes (img : PyImage) (r : Region) (d : ℕ)
    (n : QuadtreeNode) (h : BuildTree img r d n) :
    ∀ m ∈ allNodes n, BuildTree img m.border_box m.depth m := by
  induction h with
  | stop r d hc =>
    intro m hm
    rw [allNodes] at hm
    rw [List.mem_singleton] at hm
    subst hm
    exact BuildTree.stop r d hc
  | next r d hc tl tr bl br htl htr hbl hbr ihtl ihtr ihbl ihbr =>
    intro m hm
    rw [allNodes, List.mem_cons] at hm
    rcases hm with hm | hm
    · subst hm
      exact BuildTree.next r d hc tl tr bl br htl htr hbl hbr
    · rw [mem_allNodesList] at hm
      obtain ⟨c, hc', hmc⟩ := hm
      simp only [List.mem_cons, List.not_mem_nil, or_false] at hc'
      rcases hc' with h | h | h | h <;> subst h
      · exact ihtl m hmc
      · exact ihtr m hmc
      · exact ihbl m hmc
      · exact ihbr m hmc

theorem buildTree_allNodes_depth (img : PyImage) (r : Region) (d : ℕ)
    (n : QuadtreeNode) (h : BuildTree img r d n) :
    ∀ m ∈ allNodes n, d ≤ m.depth := by
  induction h with
  | stop r d hc =>
    intro m hm
    rw [allNodes, List.mem_singleton] at hm
    subst hm
    exact le_refl d
  | next r d hc tl tr bl br htl htr hbl hbr ihtl ihtr ihbl ihbr =>
    intro m hm
    rw [allNodes, List.mem_cons] at hm
    rcases hm with hm | hm
    · subst hm; exact le_refl d
    · rw [mem_allNodesList] at hm
      obtain ⟨c, hc', hmc⟩ := hm
      simp only [List.mem_cons, List.not_mem_nil, or_false] at hc'
      have hd1 : d + 1 ≤ m.depth := by
        rcases hc' with h | h | h | h <;> subst h
        · exact ihtl m hmc
        · exact ihtr m hmc
        · exact ihbl m hmc
        · exact ihbr m hmc
      omega

theorem buildTree_exists_leaf (img : PyImage) (r : Region) (d : ℕ)
    (n : QuadtreeNode) (h : BuildTree img r d n) :
    ∃ m ∈ allNodes n, m.is_leaf = true := by
  induction h with
  | stop r d hc =>
    exact ⟨.mk r d (nodeStats img r).1 (nodeStats img r).2 true none,
      by rw [allNodes, List.mem_singleton], rfl⟩
  | next r d hc tl tr bl br htl htr hbl hbr ihtl ihtr ihbl ihbr =>
    obtain ⟨m, hm, hl⟩ := ihtl
    refine ⟨m, ?_, hl⟩
    rw [allNodes, List.mem_cons]
    right
    rw [mem_allNodesList]
    exact ⟨tl, by simp, hm⟩

/-- C1: in every completed tree, a node is marked leaf if and only if
`node.depth >= MAX_DEPTH` (8) or `node.error <= ERROR_THRESHOLD` (13);
when this stop condition holds for a node during the build, no children
are created for it, and otherwise the node is split and all four children
are built recursively. -/
theorem build_stop_condition (img : PyImage) (r : Region) (d : ℕ)
    (n : QuadtreeNode) (h : BuildTree img r d n) :
    MAX_DEPTH = 8 ∧ ERROR_THRESHOLD = 13
    ∧ ∀ m ∈ allNodes n,
      (m.is_leaf = true
          ↔ (MAX_DEPTH ≤ m.depth ∨ m.error ≤ ERROR_THRESHOLD))
      ∧ ((MAX_DEPTH ≤ m.depth ∨ m.error ≤ ERROR_THRESHOLD) →
          m.childrens = none)
      ∧ (¬(MAX_DEPTH ≤ m.depth ∨ m.error ≤ ERROR_THRESHOLD) →
          ∃ tl tr bl br, m.childrens = some [tl, tr, bl, br]
            ∧ BuildTree img (topLeftRegion m.border_box) (m.depth + 1) tl
            ∧ BuildTree img (topRightRegion m.border_box) (m.depth + 1) tr
            ∧ BuildTree img (bottomLeftRegion m.border_box) (m.depth + 1) bl
            ∧ BuildTree img (bottomRightRegion m.border_box) (m.depth + 1) br) := by
  refine ⟨rfl, rfl, fun m hm => ?_⟩
  have hb := buildTree_allNodes img r d n h m hm
  obtain ⟨-, -, -, herr⟩ := buildTree_self img _ _ _ hb
  have hcond : (MAX_DEPTH ≤ m.depth ∨ m.error ≤ ERROR_THRESHOLD)
      ↔ (MAX_DEPTH ≤ m.depth
          ∨ (nodeStats img m.border_box).2 ≤ ERROR_THRESHOLD) := by
    rw [herr]
  rcases buildTree_node_cases img _ _ _ hb with
    ⟨hl, hc, hn⟩ | ⟨hl, hc, tl, tr, bl, br, hcs, htl, htr, hbl, hbr⟩
  · refine ⟨by rw [hl, hcond]; exact iff_of_true rfl hc,
      fun _ => hn, fun hnc => ?_⟩
    rw [hcond] at hnc
    exact absurd hc hnc
  · refine ⟨?_, ?_, ?_⟩
    · rw [hl, hcond]
      exact iff_of_false (by simp) hc
    · intro hcnd
      exact absurd (hcond.mp hcnd) hc
    · intro _
      exact ⟨tl, tr, bl, br, hcs, htl, htr, hbl, hbr⟩

/-- C6: after tree construction completes, every node of the tree either
is a finalized leaf with no children or has exactly four children; no
reachable node has one, two or three children. -/
theorem build_children_count (img : PyImage) (r : Region) (d : ℕ)
    (n : QuadtreeNode) (h : BuildTree img r d n) :
    ∀ m ∈ allNodes n,
      (m.is_leaf = true ∧ m.childrens = none)
      ∨ ∃ cs, m.childrens = some cs ∧ cs.length = 4 := by
  intro m hm
  rcases buildTree_node_cases img _ _ _ (buildTree_allNodes img r d n h m hm)
    with ⟨hl, -, hn⟩ | ⟨-, -, tl, tr, bl, br, hcs, -⟩
  · exact Or.inl ⟨hl, hn⟩
  · exact Or.inr ⟨[tl, tr, bl, br], hcs, rfl⟩

/-! ### A concrete image and its completed tree -/

theorem color_from_histogram_replicate_zero :
    color_from_histogram (List.replicate 768 0) = ((0, 0, 0), 0) := by
  rw [color_from_histogram_def]
  have h1 : (List.replicate 768 (0 : ℕ)).take 256 = List.replicate 256 0 := by
    rw [List.take_replicate]
    norm_num
  have h2 : ((List.replicate 768 (0 : ℕ)).drop 256).take 256
      = List.replicate 256 0 := by
    rw [List.drop_replicate, List.take_replicate]
    norm_num
  have h3 : ((List.replicate 768 (0 : ℕ)).drop 512).take 256
      = List.replicate 256 0 := by
    rw [List.drop_replicate, List.take_replicate]
    norm_num
  rw [h1, h2, h3,
    weighted_average_of_sum_zero _ (by rw [List.sum_replicate, smul_zero])]
  norm_num [pyInt]


theorem nodeStats_imgBlack (r : Region) :
    nodeStats imgBlack r = ((0, 0, 0), 0) := by
  rw [nodeStats]
  exact color_from_histogram_replicate_zero


theorem buildTree_rootBlack : BuildTree imgBlack ⟨0, 0, 1, 1⟩ 0 rootBlack := by
  have hc : (nodeStats imgBlack ⟨0, 0, 1, 1⟩).2 ≤ ERROR_THRESHOLD := by
    rw [nodeStats_imgBlack]
    norm_num [ERROR_THRESHOLD]
  have h := @BuildTree.stop imgBlack ⟨0, 0, 1, 1⟩ 0 (Or.inr hc)
  rw [nodeStats_imgBlack] at h
  exact h


theorem buildQuadTree_treeBlack : BuildQuadTree imgBlack treeBlack :=
  ⟨⟨0, 0, 1, 1⟩, rfl, rfl, rfl, buildTree_rootBlack, rfl⟩

/-- Closed instance of `build_stop_condition` at the tree built on
`imgBlack`. -/
theorem build_stop_condition_witness :
    rootBlack.is_leaf = true
      ↔ (MAX_DEPTH ≤ rootBlack.depth ∨ rootBlack.error ≤ ERROR_THRESHOLD) :=
  ((build_stop_condition imgBlack ⟨0, 0, 1, 1⟩ 0 rootBlack
    buildTree_rootBlack).2.2 rootBlack (allNodes_self_mem rootBlack)).1

/-- Closed instance of `build_children_count` at the tree built on
`imgBlack`. -/
theorem build_children_count_witness :
    (rootBlack.is_leaf = true ∧ rootBlack.childrens = none)
    ∨ ∃ cs, rootBlack.childrens = some cs ∧ cs.length = 4 :=
  build_children_count imgBlack ⟨0, 0, 1, 1⟩ 0 rootBlack buildTree_rootBlack
    rootBlack (allNodes_self_mem rootBlack)

/-! ### Leaf extraction lemmas -/

mutual

theorem get_leaf_nodes_recursion_append :
    ∀ (n : QuadtreeNode) (depth : ℕ) (acc : List QuadtreeNode),
      get_leaf_nodes_recursion n depth acc = acc ++ specCollect depth n
  | .mk r d c e l none, depth, acc => by
    rw [get_leaf_nodes_recursion, specCollect]
    by_cases h : l = true ∨ d = depth
    · rw [if_pos h, if_pos h]
    · rw [if_neg h, if_neg h, List.append_nil]
  | .mk r d c e l (some children), depth, acc => by
    rw [get_leaf_nodes_recursion, specCollect]
    by_cases h : l = true ∨ d = depth
    · rw [if_pos h, if_pos h]
    · rw [if_neg h, if_neg h]
      exact get_leaf_nodes_recursion_list_append children depth acc

theorem get_leaf_nodes_recursion_list_append :
    ∀ (cs : List QuadtreeNode) (depth : ℕ) (acc : List QuadtreeNode),
      get_leaf_nodes_recursion_list cs depth acc
        = acc ++ specCollectList depth cs
  | [], depth, acc => by
    rw [get_leaf_nodes_recursion_list, specCollectList, List.append_nil]
  | c :: rest, depth, acc => by
    rw [get_leaf_nodes_recursion_list, specCollectList,
      get_leaf_nodes_recursion_append c depth acc,
      get_leaf_nodes_recursion_list_append rest depth _, List.append_assoc]

end

mutual

theorem mem_specCollect :
    ∀ (depth : ℕ) (n : QuadtreeNode) (m : QuadtreeNode),
      m ∈ specCollect depth n → m.is_leaf = true ∨ m.depth = depth
  | depth, .mk r d c e l none, m => by
    rw [specCollect]
    by_cases h : l = true ∨ d = depth
    · rw [if_pos h]
      intro hm
      rw [List.mem_singleton] at hm
      subst hm
      exact h
    · rw [if_neg h]
      intro hm
      exact absurd hm (List.not_mem_nil m)
  | depth, .mk r d c e l (some children), m => by
    rw [specCollect]
    by_cases h : l = true ∨ d = depth
    · rw [if_pos h]
      intro hm
      rw [List.mem_singleton] at hm
      subst hm
      exact h
    · rw [if_neg h]
      exact mem_specCollectList depth children m

theorem mem_specCollectList :
    ∀ (depth : ℕ) (cs : List QuadtreeNode) (m : QuadtreeNode),
      m ∈ specCollectList depth cs → m.is_leaf = true ∨ m.depth = depth
  | depth, [], m => by
    rw [specCollectList]
    intro hm
    exact absurd hm (List.not_mem_nil m)
  | depth, c :: rest, m => by
    rw [specCollectList, List.mem_append]
    rintro (hm | hm)
    · exact mem_specCollect depth c m hm
    · exact mem_specCollectList depth rest m hm

end

theorem specCollectList_mem_of (depth : ℕ) (cs : List QuadtreeNode)
    (c : QuadtreeNode) (hc : c ∈ cs) (m : QuadtreeNode)
    (hm : m ∈ specCollect depth c) : m ∈ specCollectList depth cs := by
  induction cs with
  | nil => cases hc
  | cons x rest ih =>
    rw [specCollectList, List.mem_append]
    rcases List.mem_cons.mp hc with h | h
    · subst h
      exact Or.inl hm
    · exact Or.inr (ih h)

theorem leaf_mem_specCollect (img : PyImage) (r : Region) (d : ℕ)
    (n : QuadtreeNode) (h : BuildTree img r d n) (depth : ℕ) :
    ∀ m ∈ allNodes n, m.is_leaf = true → m.depth ≤ depth →
      m ∈ specCollect depth n := by
  induction h with
  | stop r d hc =>
    intro m hm hl hd
    rw [allNodes, List.mem_singleton] at hm
    subst hm
    rw [specCollect, if_pos (Or.inl rfl), List.mem_singleton]
  | next r d hc tl tr bl br htl htr hbl hbr ihtl ihtr ihbl ihbr =>
    intro m hm hl hd
    rw [allNodes, List.mem_cons] at hm
    rcases hm with hm | hm
    · subst hm
      simp [QuadtreeNode.is_leaf] at hl
    · rw [mem_allNodesList] at hm
      obtain ⟨c, hcmem, hmc⟩ := hm
      simp only [List.mem_cons, List.not_mem_nil, or_false] at hcmem
      have hd1 : d + 1 ≤ m.depth := by
        rcases hcmem with hcc | hcc | hcc | hcc <;> subst hcc
        · exact buildTree_allNodes_depth img _ _ _ htl m hmc
        · exact buildTree_allNodes_depth img _ _ _ htr m hmc
        · exact buildTree_allNodes_depth img _ _ _ hbl m hmc
        · exact buildTree_allNodes_depth img _ _ _ hbr m hmc
      have hcond : ¬(false = true ∨ d = depth) := by
        rintro (hh | hh)
        · cases hh
        · omega
      rw [specCollect, if_neg hcond]
      have hmem : m ∈ specCollect depth c := by
        rcases hcmem with hcc | hcc | hcc | hcc <;> subst hcc
        · exact ihtl m hmc hl hd
        · exact ihtr m hmc hl hd
        · exact ihbl m hmc hl hd
        · exact ihbr m hmc hl hd
      apply specCollectList_mem_of depth [tl, tr, bl, br] c _ m hmem
      rcases hcmem with hcc | hcc | hcc | hcc <;> subst hcc <;> simp

theorem le_foldr_max (l : List ℕ) (a : ℕ) (ha : a ∈ l) :
    a ≤ l.foldr max 0 := by
  induction l with
  | nil => cases ha
  | cons x rest ih =>
    rw [List.foldr_cons]
    rcases List.mem_cons.mp ha with h | h
    · subst h
      exact le_max_left _ _
    · exact le_trans (ih h) (le_max_right _ _)

theorem foldr_max_mem (l : List ℕ) (h : l ≠ []) : l.foldr max 0 ∈ l := by
  induction l with
  | nil => cases h rfl
  | cons x rest ih =>
    by_cases hr : rest = []
    · subst hr
      rw [List.foldr_cons, List.foldr_nil, Nat.max_zero]
      exact List.mem_singleton.mpr rfl
    · rcases max_choice x (rest.foldr max 0) with hm | hm <;>
        rw [List.foldr_cons, hm]
      · exact List.mem_cons_self _ _
      · exact List.mem_cons_of_mem _ (ih hr)

theorem maxLeafDepth_is_max (n : QuadtreeNode) :
    ∀ m ∈ allNodes n, m.is_leaf = true → m.depth ≤ maxLeafDepth n := by
  intro m hm hl
  apply le_foldr_max
  rw [List.mem_map]
  exact ⟨m, List.mem_filter.mpr ⟨hm, hl⟩, rfl⟩

theorem maxLeafDepth_attained (n : QuadtreeNode)
    (hne : ∃ m ∈ allNodes n, m.is_leaf = true) :
    ∃ m ∈ allNodes n, m.is_leaf = true ∧ m.depth = maxLeafDepth n := by
  obtain ⟨m0, hm0, hl0⟩ := hne
  have hmem : m0.depth
      ∈ ((allNodes n).filter (fun m => m.is_leaf)).map (fun m => m.depth) := by
    rw [List.mem_map]
    exact ⟨m0, List.mem_filter.mpr ⟨hm0, hl0⟩, rfl⟩
  have hfold := foldr_max_mem _ (List.ne_nil_of_mem hmem)
  rw [List.mem_map] at hfold
  obtain ⟨m, hmf, hdep⟩ := hfold
  rw [List.mem_filter] at hmf
  exact ⟨m, hmf.1, hmf.2, hdep⟩

/-- C7: for every completed tree and every requested depth not exceeding
the tree's recorded maximum depth, `get_leaf_nodes` performs the
depth-first traversal in which a node is collected, and not descended
into, if and only if it is marked leaf or its depth equals the requested
depth, and otherwise the traversal recurses into the children; in
particular a leaf finalized at a depth shallower than the requested depth
is returned (at its own depth), never replaced by deeper descendants. -/
theorem get_leaf_nodes_traversal (img : PyImage) (t : QuadTree)
    (h : BuildQuadTree img t) (depth : ℕ) (hd : depth ≤ t.max_depth) :
    t.get_leaf_nodes depth = Except.ok (specCollect depth t.root)
    ∧ (∀ m ∈ specCollect depth t.root,
        m.is_leaf = true ∨ m.depth = depth)
    ∧ (∀ m ∈ allNodes t.root, m.is_leaf = true → m.depth ≤ depth →
        m ∈ specCollect depth t.root) := by
  obtain ⟨r0, hbb, hw, hh, hb, hmax⟩ := h
  refine ⟨?_, fun m hm => mem_specCollect depth t.root m hm,
    leaf_mem_specCollect img r0 0 t.root hb depth⟩
  rw [QuadTree.get_leaf_nodes, if_neg (by omega),
    get_leaf_nodes_recursion_append, List.nil_append]

/-- Closed instance of `get_leaf_nodes_traversal` at the tree built on
`imgBlack`, requested depth `0`. -/
theorem get_leaf_nodes_traversal_witness :
    treeBlack.get_leaf_nodes 0 = Except.ok (specCollect 0 treeBlack.root) :=
  (get_leaf_nodes_traversal imgBlack treeBlack buildQuadTree_treeBlack 0
    (le_refl 0)).1

/-- C8: for every completed tree, `get_leaf_nodes(depth)` fails with a
`ValueError` if and only if `depth` exceeds the tree's recorded maximum
depth, which is the greatest depth among the nodes that were stopped from
splitting (the leaf-marked nodes); on failure only the error is produced,
never a partial list. -/
theorem get_leaf_nodes_depth_bound (img : PyImage) (t : QuadTree)
    (h : BuildQuadTree img t) :
    (∀ depth : ℕ, (∃ exc, t.get_leaf_nodes depth = Except.error exc)
        ↔ t.max_depth < depth)
    ∧ (∀ depth : ℕ, t.max_depth < depth →
        t.get_leaf_nodes depth = Except.error PyExc.valueError)
    ∧ (∀ m ∈ allNodes t.root, m.is_leaf = true → m.depth ≤ t.max_depth)
    ∧ (∃ m ∈ allNodes t.root, m.is_leaf = true ∧ m.depth = t.max_depth) := by
  obtain ⟨r0, hbb, hw, hh, hb, hmax⟩ := h
  refine ⟨fun depth => ⟨?_, fun hlt => ?_⟩,
    fun depth hlt => by rw [QuadTree.get_leaf_nodes, if_pos hlt], ?_, ?_⟩
  · rintro ⟨exc, hexc⟩
    by_contra hlt
    rw [QuadTree.get_leaf_nodes, if_neg hlt] at hexc
    cases hexc
  · exact ⟨PyExc.valueError, by rw [QuadTree.get_leaf_nodes, if_pos hlt]⟩
  · rw [hmax]
    exact maxLeafDepth_is_max t.root
  · rw [hmax]
    exact maxLeafDepth_attained t.root
      (buildTree_exists_leaf img r0 0 t.root hb)

/-- Closed instance of `get_leaf_nodes_depth_bound` at the tree built on
`imgBlack`: depth `1` exceeds its maximum depth `0` and is rejected. -/
theorem get_leaf_nodes_depth_bound_witness :
    treeBlack.get_leaf_nodes 1 = Except.error PyExc.valueError :=
  (get_leaf_nodes_depth_bound imgBlack treeBlack
    buildQuadTree_treeBlack).2.1 1 (by norm_num [treeBlack])

/-- C10: for every completed tree, `get_leaf_nodes 0` does not fail and
returns exactly one node, the root, regardless of whether the root is
marked leaf; depth `0` passes the depth-bound check because the recorded
maximum depth is never below `0`. -/
theorem get_leaf_nodes_zero (img : PyImage) (t : QuadTree)
    (h : BuildQuadTree img t) :
    t.get_leaf_nodes 0 = Except.ok [t.root] := by
  obtain ⟨r0, hbb, hw, hh, hb, hmax⟩ := h
  have hd : t.root.depth = 0 := (buildTree_self img r0 0 t.root hb).2.1
  rw [QuadTree.get_leaf_nodes, if_neg (by omega)]
  suffices hgen : ∀ n : QuadtreeNode, n.depth = 0 →
      get_leaf_nodes_recursion n 0 [] = [n] by
    rw [hgen t.root hd]
  intro n hn
  cases n with
  | mk r d c e l cs =>
    have hd0 : d = 0 := hn
    cases cs with
    | none =>
      rw [get_leaf_nodes_recursion, if_pos (Or.inr hd0), List.nil_append]
    | some children =>
      rw [get_leaf_nodes_recursion, if_pos (Or.inr hd0), List.nil_append]

/-- Closed instance of `get_leaf_nodes_zero` at the tree built on
`imgBlack`. -/
theorem get_leaf_nodes_zero_witness :
    treeBlack.get_leaf_nodes 0 = Except.ok [treeBlack.root] :=
  get_leaf_nodes_zero imgBlack treeBlack buildQuadTree_treeBlack

/-! ### Image-input handling -/


/-- C9 counterexample: on a zero-width image, constructing the `QuadTree`
does not report a dedicated invalid-input rejection before node
construction; root-node construction is attempted unconditionally and
fails inside `QuadtreeNode.__init__` with a `TypeError` (subscripting the
`None` bounding box). -/
theorem quadtree_init_claim_counterexample :
    imgZeroWidth.width = 0
    ∧ quadtree_init_root imgZeroWidth = Except.error PyExc.typeError
    ∧ quadtree_init_root imgZeroWidth ≠ Except.error PyExc.invalidInput := by
  refine ⟨rfl, rfl, ?_⟩
  intro hcontra
  have h1 : quadtree_init_root imgZeroWidth = Except.error PyExc.typeError :=
    rfl
  rw [h1] at hcontra
  cases Except.error.inj hcontra

/-- C9 (amended): constructing a `QuadTree` from an image with zero width
or zero height is not validated: the constructor unconditionally attempts
root node construction with `image.getbbox()`.  When the bounding box is
absent (as for a zero-dimension image) that construction raises a
`TypeError` inside `QuadtreeNode.__init__`; when a box is present the
root node is constructed; and the image's width and height are never
inspected before node construction. -/
theorem quadtree_init_zero_dim (img : PyImage) :
    (img.getbbox = none →
      quadtree_init_root img = Except.error PyExc.typeError)
    ∧ (∀ r0 : Region, img.getbbox = some r0 →
        quadtree_init_root img = Except.ok (mkQuadtreeNode img r0 0))
    ∧ (∀ w h : ℕ,
        quadtree_init_root ⟨w, h, img.getbbox, img.histogram⟩
          = quadtree_init_root img) := by
  refine ⟨fun hb => ?_, fun r0 hb => ?_, fun w h => ?_⟩
  · rw [quadtree_init_root, hb]
    rfl
  · rw [quadtree_init_root, hb]
    rfl
  · rw [quadtree_init_root, quadtree_init_root]
    cases hbb : img.getbbox with
    | none => rfl
    | some r0 => rfl

/-- Closed instance of `quadtree_init_zero_dim` at the zero-width
image. -/
theorem quadtree_init_zero_dim_witness :
    quadtree_init_root imgZeroWidth = Except.error PyExc.typeError :=
  (quadtree_init_zero_dim imgZeroWidth).1 rfl
